import Mathlib

/-!
# glog: severity routing and the global logger handle

A shallow embedding of `log.go`.  The package composes zap cores: either one
core with a threshold filter over a single sink, or five cores with exact-level
filters over five rotating files, merged by `zapcore.NewTee`, and publishes the
resulting logger in two package-level atomic slots.

Go pointers to a configuration are embedded by state passing: a function that
receives `*Config` returns the configuration it leaves behind.  A Go panic is an
explicit outcome (`Res.panic`).  The JSON encoder and the rotation performed by
lumberjack are outside the model; a sink is identified by what it writes to.

The functions of zap, of lumberjack and of the Go standard library that `log.go`
calls are embedded from their documented behaviour: level parsing and level
enablers, io cores and their tee, logger options, `filepath.Join`.  The file
system, the console and `bytes.ToLower` are parameters, gathered in `Host`.
`Config` and what else `log.go` uses without declaring it are marked as such.
-/

set_option autoImplicit false

namespace Glog

/-! ## Outcomes -/

/-- Go `error` values produced by this package and by the calls it makes. -/
inductive Err where
  /-- `fmt.Errorf("unrecognized level: %q", text)` of zapcore. -/
  | unrecognizedLevel (text : String)
  /-- `errors.New("can't use directory as log file name")`. -/
  | directoryAsLogFile
  /-- An error reported by `zap.Open`. -/
  | openFailed (msg : String)
  /-- `errors.Wrap(cause, msg)`. -/
  | wrap (cause : Err) (msg : String)
  deriving DecidableEq, Repr

/-- Outcome of a Go call that may return a value, return an error, or panic. -/
inductive Res (α : Type) where
  | ok (v : α)
  | err (e : Err)
  | panic (msg : String)
  deriving Repr

/-- The call returned normally without an error. -/
def Res.isOk {α : Type} : Res α → Bool
  | .ok _ => true
  | _ => false

/-- The call returned an error value. -/
def Res.isErr {α : Type} : Res α → Bool
  | .err _ => true
  | _ => false

/-- The call panicked. -/
def Res.isPanic {α : Type} : Res α → Bool
  | .panic _ => true
  | _ => false

/-! ## zapcore levels -/

/-- The type `zapcore.Level`, an `int8`. -/
abbrev Level := Int

def DebugLevel : Level := -1
def InfoLevel : Level := 0
def WarnLevel : Level := 1
def ErrorLevel : Level := 2
def DPanicLevel : Level := 3
def PanicLevel : Level := 4
def FatalLevel : Level := 5

/-- The method `Level.Enabled` of zapcore: `return lvl >= l`. -/
def Level.Enabled (l lvl : Level) : Bool := decide (lvl ≥ l)

/-- The switch of zapcore's `Level.unmarshalText`. -/
def Level.unmarshalText (text : String) : Option Level :=
  if text = "debug" ∨ text = "DEBUG" then some DebugLevel
  else if text = "info" ∨ text = "INFO" ∨ text = "" then some InfoLevel
  else if text = "warn" ∨ text = "WARN" then some WarnLevel
  else if text = "error" ∨ text = "ERROR" then some ErrorLevel
  else if text = "dpanic" ∨ text = "DPANIC" then some DPanicLevel
  else if text = "panic" ∨ text = "PANIC" then some PanicLevel
  else if text = "fatal" ∨ text = "FATAL" then some FatalLevel
  else none

/-- zapcore's `Level.UnmarshalText`: the text as written, then its lower-casing.
`toLower` stands for Go's `bytes.ToLower`. -/
def Level.UnmarshalText (toLower : String → String) (text : String) : Except Err Level :=
  match Level.unmarshalText text with
  | some l => .ok l
  | none =>
    match Level.unmarshalText (toLower text) with
    | some l => .ok l
    | none => .error (.unrecognizedLevel text)

/-! ## Sinks and cores -/

/-- The type `lumberjack.Logger`, as far as `initFileLog` fills it. -/
structure LumberjackLogger where
  Filename : String
  MaxSize : Int
  MaxBackups : Int
  MaxAge : Int
  LocalTime : Bool
  deriving DecidableEq, Repr

/-- A `zapcore.WriteSyncer`: a standard stream or a rotating file. -/
inductive WriteSyncer where
  | stdout
  | stderr
  | lumberjack (lg : LumberjackLogger)
  deriving DecidableEq, Repr

/-- The `ioCore` of zapcore: a level enabler and the sink it writes to. -/
structure ioCore where
  enab : Level → Bool
  out : WriteSyncer

/-- The constructor `zapcore.NewCore(enc, ws, enab)`. -/
def NewCore (ws : WriteSyncer) (enab : Level → Bool) : ioCore :=
  { enab := enab, out := ws }

/-- A `zapcore.Core` as `NewTee` builds it over io cores. -/
inductive Core where
  | nop
  | io (c : ioCore)
  | multi (cs : List ioCore)

/-- The function `zapcore.NewTee`. -/
def NewTee : List ioCore → Core
  | [] => .nop
  | [c] => .io c
  | cs => .multi cs

/-- The method `Core.Enabled`: a tee is enabled when one of its cores is. -/
def Core.Enabled : Core → Level → Bool
  | .nop, _ => false
  | .io c, lvl => c.enab lvl
  | .multi cs, lvl => cs.any (fun c => c.enab lvl)

/-- The method `Core.Check`: the cores that add themselves to the checked entry. -/
def Core.Check : Core → Level → List ioCore
  | .nop, _ => []
  | .io c, lvl => if c.enab lvl then [c] else []
  | .multi cs, lvl => cs.filter (fun c => c.enab lvl)

/-- The io cores a core is made of. -/
def Core.cores : Core → List ioCore
  | .nop => []
  | .io c => [c]
  | .multi cs => cs

/-! ## zap loggers -/

/-- The fields of `zap.Logger` that options and emission read. -/
structure Logger where
  core : Core
  development : Bool
  addCaller : Bool
  addStack : Level → Bool
  errorOutput : WriteSyncer
  callerSkip : Nat

/-- The type `zap.SugaredLogger`. -/
structure SugaredLogger where
  base : Logger

/-- A `zap.Option`: applied to the logger under construction. -/
abbrev ZapOption := Logger → Logger

def ErrorOutput (w : WriteSyncer) : ZapOption := fun log => { log with errorOutput := w }
def Development : ZapOption := fun log => { log with development := true }
def AddCaller : ZapOption := fun log => { log with addCaller := true }
def AddStacktrace (lvl : Level → Bool) : ZapOption := fun log => { log with addStack := lvl }
/-- The option `zap.WrapCore`. -/
def WrapCore (f : Core → Core) : ZapOption := fun log => { log with core := f log.core }

/-- The function `zap.New`: the default logger over `core`, then the options in order. -/
def New (core : Core) (opts : List ZapOption) : Logger :=
  opts.foldl (fun log o => o log)
    { core := core, development := false, addCaller := false,
      addStack := Level.Enabled (FatalLevel + 1), errorOutput := .stderr, callerSkip := 0 }

/-- The method `Logger.Sugar`. -/
def Logger.Sugar (log : Logger) : SugaredLogger :=
  { base := { log with callerSkip := log.callerSkip + 2 } }

/-- The method `Logger.check`: the cores that will write a record of level `lvl`. -/
def Logger.check (log : Logger) (lvl : Level) : List ioCore :=
  if lvl < DPanicLevel ∧ log.core.Enabled lvl = false then [] else log.core.Check lvl

/-- The sinks a record of level `lvl` is written to, in the order of the cores. -/
def Logger.Write (log : Logger) (lvl : Level) : List WriteSyncer :=
  (log.check lvl).map (fun c => c.out)

/-! ## Configuration -/

/-- Modelled from the spec: the declaration of `FileLogConfig` is not in `log.go`;
the fields are the file descriptor of the logging configuration (directory, base
filename, max size in MB, max age in days, max backup count), under the names
`log.go` and its test use. -/
structure FileLogConfig where
  LogDir : String
  Filename : String
  MaxSize : Int
  MaxDays : Int
  MaxBackups : Int
  deriving DecidableEq, Repr

/-- The type `zap.SamplingConfig`. -/
structure SamplingConfig where
  Initial : Int
  Thereafter : Int
  deriving DecidableEq, Repr

/-- Modelled from the spec: the declaration of `Config` is not in `log.go`; the
fields are the minimum severity text, the file descriptor, the behavioural flags
and the optional sampling policy, under the names the test uses. -/
structure Config where
  Level : String
  Format : String
  DisableTimestamp : Bool
  File : FileLogConfig
  Development : Bool
  DisableCaller : Bool
  DisableStacktrace : Bool
  DisableErrorVerbose : Bool
  Sampling : Option SamplingConfig
  deriving DecidableEq, Repr

/-- Modelled from the spec: the constant `defaultLogMaxSize` is not in `log.go`;
the spec gives the fixed fallback for a zero max size as 100 MB. -/
def defaultLogMaxSize : Int := 100

/-- Modelled from the spec: the method `buildOptions` is not in `log.go`; the spec
describes the options it yields as auxiliary logger-level behaviours (development
mode, caller capture, stack traces on error) that use the given sink as their
target, and the sampling policy as an opaque pass-through. -/
def Config.buildOptions (cfg : Config) (errSink : WriteSyncer) : List ZapOption :=
  [ErrorOutput errSink]
    ++ (if cfg.Development then [Glog.Development] else [])
    ++ (if cfg.DisableCaller then [] else [Glog.AddCaller])
    ++ (if cfg.DisableStacktrace then [] else [Glog.AddStacktrace (Glog.Level.Enabled ErrorLevel)])

/-! ## The host: file system, standard streams, text functions -/

/-- The part of `os.FileInfo` that `initFileLog` reads. -/
structure FileInfo where
  IsDir : Bool
  deriving DecidableEq, Repr

/-- What the package asks of its surroundings at one call. -/
structure Host where
  /-- The call `os.Stat(name)`; `none` when it returns an error. -/
  Stat : String → Option FileInfo
  /-- The call `zap.Open(paths...)`: the sink, or the error. -/
  Open : List String → Except Err WriteSyncer
  /-- The function `bytes.ToLower`. -/
  ToLower : String → String

/-! ## Paths: `filepath.Join` on a slash-separated system -/

/-- The elements of a path between its separators; `a//b` has an empty element. -/
def pathElems : List Char → List (List Char)
  | [] => [[]]
  | c :: cs =>
    if c = '/' then [] :: pathElems cs
    else
      match pathElems cs with
      | [] => [[c]]
      | e :: es => (c :: e) :: es

/-- One element read by `filepath.Clean`.  `kept` holds the elements written so
far, the last one first.  An empty element and `.` are skipped; `..` removes the
last written element, is dropped at the root, and is written when the path is
not rooted and nothing but `..` elements were written; any other element is
written. -/
def cleanElem (rooted : Bool) (kept : List (List Char)) (e : List Char) : List (List Char) :=
  if e = [] ∨ e = ['.'] then kept
  else if e = ['.', '.'] then
    match kept with
    | [] => if rooted then [] else [e]
    | k :: ks => if k = ['.', '.'] then e :: k :: ks else ks
  else e :: kept

/-- Elements joined by single separators. -/
def joinElems : List (List Char) → List Char
  | [] => []
  | [e] => e
  | e :: es => e ++ '/' :: joinElems es

/-- The function `filepath.Clean`: the shortest equivalent path. -/
def Clean (path : List Char) : List Char :=
  let rooted := path.head? = some '/'
  let kept := (pathElems path).foldl (cleanElem rooted) []
  let out := (if rooted then ['/'] else []) ++ joinElems kept.reverse
  if out = [] then ['.'] else out

/-- The elements from the first non-empty one on. -/
def dropEmpty : List String → List String
  | [] => []
  | e :: es => if e = "" then dropEmpty es else e :: es

/-- The function `filepath.Join`: from the first non-empty element on, the
elements are joined by separators and the result is cleaned; with no non-empty
element the result is empty. -/
def Join (elem : List String) : String :=
  match dropEmpty elem with
  | [] => ""
  | es => String.mk (Clean (joinElems (es.map String.data)))

/-! ## log.go -/

/-- The five level names, in order. -/
def LevelList : List String := ["DEBUG", "INFO", "WARN", "ERROR", "FATAL"]

def debugLevel : Level → Bool := fun lvl => lvl == DebugLevel
def infoLevel : Level → Bool := fun lvl => lvl == InfoLevel
def warnLevel : Level → Bool := fun lvl => lvl == WarnLevel
def errorLevel : Level → Bool := fun lvl => lvl == ErrorLevel
def fatalLevel : Level → Bool := fun lvl => lvl == FatalLevel

/-- The five exact-level enablers, in the order of `LevelList`. -/
def levelList : List (Level → Bool) := [debugLevel, infoLevel, warnLevel, errorLevel, fatalLevel]

/-- The two package-level atomic values; `none` is a value never stored. -/
structure Globals where
  _globalL : Option Logger
  _globalS : Option SugaredLogger

/-- The handle before any store. -/
def Globals.empty : Globals := { _globalL := none, _globalS := none }

/-- The function `L`: the type assertion on an empty atomic value panics. -/
def L (g : Globals) : Res Logger :=
  match g._globalL with
  | some lg => .ok lg
  | none => .panic "interface conversion: interface is nil, not *zap.Logger"

/-- The function `S`. -/
def S (g : Globals) : Res SugaredLogger :=
  match g._globalS with
  | some s => .ok s
  | none => .panic "interface conversion: interface is nil, not *zap.SugaredLogger"

/-- The test of `initFileLog` on its path: `os.Stat` succeeds and reports a directory. -/
def isDirectory (h : Host) (path : String) : Bool :=
  match h.Stat path with
  | some st => st.IsDir
  | none => false

/-- The function `initFileLog`, with the file configuration it leaves behind. -/
def initFileLog (h : Host) (cfg : FileLogConfig) : Except Err LumberjackLogger × FileLogConfig :=
  let filename := Join [cfg.LogDir, cfg.Filename]
  if isDirectory h filename then (.error .directoryAsLogFile, cfg)
  else
    let cfg1 := if cfg.MaxSize = 0 then { cfg with MaxSize := defaultLogMaxSize } else cfg
    (.ok { Filename := filename, MaxSize := cfg1.MaxSize, MaxBackups := cfg1.MaxBackups,
           MaxAge := cfg1.MaxDays, LocalTime := true }, cfg1)

/-- What `GetFileLogs` returns, a slice and an error, and the configuration it
leaves behind; the nil slice is the empty list. -/
structure FileLogs where
  fileLogs : List WriteSyncer
  err : Option Err
  cfg : Config
  deriving DecidableEq, Repr

/-- The loop of `GetFileLogs` over the remaining level names. -/
def GetFileLogs.loop (h : Host) (fileName : String) :
    List String → Config → List WriteSyncer → FileLogs
  | [], cfg, fileLogs => { fileLogs := fileLogs, err := none, cfg := cfg }
  | level :: rest, cfg, fileLogs =>
    let cfg1 := { cfg with File := { cfg.File with Filename := fileName ++ "." ++ level ++ ".log" } }
    match initFileLog h cfg1.File with
    | (.error e, f) =>
      { fileLogs := [], err := some (.wrap e "init file log failed"), cfg := { cfg1 with File := f } }
    | (.ok lg, f) =>
      GetFileLogs.loop h fileName rest { cfg1 with File := f } (fileLogs ++ [.lumberjack lg])

/-- The function `GetFileLogs`. -/
def GetFileLogs (h : Host) (cfg : Config) : FileLogs :=
  GetFileLogs.loop h cfg.File.Filename LevelList cfg []

/-- The loop `for i := range LevelList` of `InitLoggerWithWriteSyncer`. -/
def InitLoggerWithWriteSyncer.loop (output : List WriteSyncer) :
    List Nat → List ioCore → Res (List ioCore)
  | [], cores => .ok cores
  | i :: rest, cores =>
    match output[i]?, levelList[i]? with
    | some o, some enab => InitLoggerWithWriteSyncer.loop output rest (cores ++ [NewCore o enab])
    | _, _ => .panic "index out of range"

/-- The cores `InitLoggerWithWriteSyncer` builds before it merges them. -/
def InitLoggerWithWriteSyncer.cores (h : Host) (cfg : Config) (output : List WriteSyncer) :
    Res (List ioCore) :=
  if output.length = 1 then
    match Level.UnmarshalText h.ToLower cfg.Level with
    | .error e => .err e
    | .ok level =>
      match output[0]? with
      | some o => .ok ([] ++ [NewCore o (Level.Enabled level)])
      | none => .panic "index out of range"
  else InitLoggerWithWriteSyncer.loop output (List.range LevelList.length) []

/-- The function `InitLoggerWithWriteSyncer`. -/
def InitLoggerWithWriteSyncer (h : Host) (cfg : Config) (output : List WriteSyncer)
    (opts : List ZapOption) : Res Logger :=
  match InitLoggerWithWriteSyncer.cores h cfg output with
  | .err e => .err e
  | .panic m => .panic m
  | .ok cores =>
    let core := NewTee cores
    match output[output.length - 1]? with
    | none => .panic "index out of range"
    | some last => .ok (New core (cfg.buildOptions last ++ opts))

/-- The sink list `InitLogger` builds before it calls `InitLoggerWithWriteSyncer`,
or the error it returns instead, and the configuration at that point. -/
def InitLogger.output (h : Host) (cfg : Config) : Except Err (List WriteSyncer) × Config :=
  if cfg.File.Filename.length > 0 then
    let r := GetFileLogs h cfg
    match r.err with
    | some e => (.error (.wrap e "init log file failed"), r.cfg)
    | none => (.ok r.fileLogs, r.cfg)
  else
    match h.Open ["stdout"] with
    | .error e => (.error (.wrap e "init stdout log failed"), cfg)
    | .ok stdOut => (.ok [stdOut], cfg)

/-- The function `InitLogger`: its outcome, the two globals and the configuration
after the call. -/
def InitLogger (h : Host) (g : Globals) (cfg : Config) (opts : List ZapOption) :
    Res Unit × Globals × Config :=
  match InitLogger.output h cfg with
  | (.error e, cfg1) => (.err e, g, cfg1)
  | (.ok output, cfg1) =>
    match InitLoggerWithWriteSyncer h cfg1 output opts with
    | .err e => (.err (.wrap e "InitLoggerWithWriteSyncer failed"), g, cfg1)
    | .panic m => (.panic m, g, cfg1)
    | .ok logger =>
      (.ok (), { _globalL := some logger, _globalS := some logger.Sugar }, cfg1)

/-- The query `L().Core().Enabled(lvl)`. -/
def IsEnabled (g : Globals) (lvl : Level) : Res Bool :=
  match L g with
  | .ok lg => .ok (lg.core.Enabled lvl)
  | .err e => .err e
  | .panic m => .panic m

def IsDebugEnabled (g : Globals) : Res Bool := IsEnabled g DebugLevel
def IsInfoEnabled (g : Globals) : Res Bool := IsEnabled g InfoLevel
def IsWarnEnabled (g : Globals) : Res Bool := IsEnabled g WarnLevel

/-- An emission `L().<Level>(message, field...)`: the sinks the record is written to. -/
def Emit (g : Globals) (lvl : Level) : Res (List WriteSyncer) :=
  match L g with
  | .ok lg => .ok (lg.Write lvl)
  | .err e => .err e
  | .panic m => .panic m

def Debug (g : Globals) : Res (List WriteSyncer) := Emit g DebugLevel
def Info (g : Globals) : Res (List WriteSyncer) := Emit g InfoLevel
def Warn (g : Globals) : Res (List WriteSyncer) := Emit g WarnLevel
def Error (g : Globals) : Res (List WriteSyncer) := Emit g ErrorLevel
def Fatal (g : Globals) : Res (List WriteSyncer) := Emit g FatalLevel

/-! ## Specification vocabulary -/

/-- The rotating file sink for one level name: the path is the directory joined
with `<fileName>.<level>.log`, the size is the configured one or the fallback. -/
def fileSink (f : FileLogConfig) (fileName level : String) : WriteSyncer :=
  .lumberjack
    { Filename := Join [f.LogDir, fileName ++ "." ++ level ++ ".log"],
      MaxSize := if f.MaxSize = 0 then defaultLogMaxSize else f.MaxSize,
      MaxBackups := f.MaxBackups, MaxAge := f.MaxDays, LocalTime := true }

/-- The resolved path of the per-level file of a configuration. -/
def levelPath (cfg : Config) (level : String) : String :=
  Join [cfg.File.LogDir, cfg.File.Filename ++ "." ++ level ++ ".log"]

/-- The per-level sink of a configuration. -/
def levelSink (cfg : Config) (level : String) : WriteSyncer :=
  fileSink cfg.File cfg.File.Filename level

/-- The configuration after one successful round of the loop of `GetFileLogs`:
the file name is the per-level one and a zero max size is replaced. -/
def afterRound (cfg : Config) (fileName level : String) : Config :=
  { cfg with File :=
      { cfg.File with
        Filename := fileName ++ "." ++ level ++ ".log",
        MaxSize := if cfg.File.MaxSize = 0 then defaultLogMaxSize else cfg.File.MaxSize } }

/-- The five severities of the package, in the order of `LevelList`. -/
def severities : List Level := [DebugLevel, InfoLevel, WarnLevel, ErrorLevel, FatalLevel]

/-- An option that leaves the core of the logger in place. -/
def keepsCore (o : ZapOption) : Prop := ∀ log : Logger, (o log).core = log.core

/-- One call of `InitLogger`: the host at the time of the call, the configuration
and the options it is given. -/
structure Call where
  host : Host
  cfg : Config
  opts : List ZapOption

/-- The globals after one call of `InitLogger`. -/
def Call.run (g : Globals) (c : Call) : Globals :=
  (InitLogger c.host g c.cfg c.opts).2.1

/-- The globals after a sequence of calls of `InitLogger`, the first one first. -/
def runInits (g : Globals) (calls : List Call) : Globals :=
  calls.foldl Call.run g

/-- The cores over the five per-level sinks. -/
def levelCores (cfg : Config) : List ioCore :=
  [NewCore (levelSink cfg "DEBUG") debugLevel, NewCore (levelSink cfg "INFO") infoLevel,
   NewCore (levelSink cfg "WARN") warnLevel, NewCore (levelSink cfg "ERROR") errorLevel,
   NewCore (levelSink cfg "FATAL") fatalLevel]

/-! ## Sample hosts and configurations -/

/-- Lower-casing of the ASCII letters; `bytes.ToLower` agrees with it on ASCII text. -/
def asciiLower (s : String) : String := String.mk (s.data.map Char.toLower)

/-- A host on which no path exists and the console opens. -/
def hostQuiet : Host :=
  { Stat := fun _ => none, Open := fun _ => .ok .stdout, ToLower := asciiLower }

/-- A host on which `logs/test.WARN.log` is a directory. -/
def hostDir : Host :=
  { Stat := fun p => if p = "logs/test.WARN.log" then some { IsDir := true } else none,
    Open := fun _ => .ok .stdout, ToLower := asciiLower }

/-- The configuration of `TestDebugToFile`. -/
def cfgFile : Config :=
  { Level := "debug", Format := "json", DisableTimestamp := false,
    File := { LogDir := "./logs", Filename := "test", MaxSize := 1, MaxDays := 5, MaxBackups := 10 },
    Development := false, DisableCaller := false, DisableStacktrace := false,
    DisableErrorVerbose := false, Sampling := none }

/-- The configuration of `TestDebugToConsole`. -/
def cfgConsole : Config :=
  { cfgFile with File := { cfgFile.File with Filename := "" } }

/-- A console configuration with minimum level WARN. -/
def cfgWarn : Config := { cfgConsole with Level := "WARN" }

/-- A console configuration whose minimum level text is not a level name. -/
def cfgVerbose : Config := { cfgConsole with Level := "verbose" }

/-- The globals after `InitLogger` with the console configuration. -/
def globalsConsole : Globals := (InitLogger hostQuiet .empty cfgConsole []).2.1

/-- The rotating file sink of the sample configuration at a path. -/
def sampleFile (path : String) : WriteSyncer :=
  .lumberjack { Filename := path, MaxSize := 1, MaxBackups := 10, MaxAge := 5, LocalTime := true }

/-! # Proofs -/

/-! ## Path lemmas -/

theorem pathElems_of_no_sep (s : List Char) (hs : '/' ∉ s) : pathElems s = [s] := by
  induction s with
  | nil => rfl
  | cons c cs ih =>
    have hc : c ≠ '/' := fun h => hs (by simp [h])
    have hcs : '/' ∉ cs := fun h => hs (by simp [h])
    simp [pathElems, hc, ih hcs]

theorem pathElems_append (x : List Char) :
    ∃ init last, pathElems x = init ++ [last] ∧
      ∀ s, '/' ∉ s → pathElems (x ++ s) = init ++ [last ++ s] := by
  induction x with
  | nil => exact ⟨[], [], rfl, fun s hs => by simpa using pathElems_of_no_sep s hs⟩
  | cons c cs ih =>
    obtain ⟨init, last, h1, h2⟩ := ih
    by_cases hc : c = '/'
    · refine ⟨[] :: init, last, by simp [pathElems, hc, h1], fun s hs => ?_⟩
      simp [pathElems, hc, h2 s hs]
    · cases init with
      | nil =>
        refine ⟨[], c :: last, by simp [pathElems, hc, h1], fun s hs => ?_⟩
        simp [pathElems, hc, h2 s hs]
      | cons i is =>
        refine ⟨(c :: i) :: is, last, by simp [pathElems, hc, h1], fun s hs => ?_⟩
        simp [pathElems, hc, h2 s hs]

theorem joinElems_snoc (es : List (List Char)) :
    ∃ pre, ∀ e, joinElems (es ++ [e]) = pre ++ e := by
  induction es with
  | nil => exact ⟨[], fun e => rfl⟩
  | cons a as ih =>
    obtain ⟨pre, hp⟩ := ih
    refine ⟨a ++ '/' :: pre, fun e => ?_⟩
    have h := hp e
    cases as with
    | nil => simp [joinElems] at h ⊢; simp [h]
    | cons b bs => simp [joinElems] at h ⊢; simp [h]

/-- A written element: not empty, not `.`, not `..`. -/
theorem cleanElem_of_long (rooted : Bool) (kept : List (List Char)) (e : List Char)
    (he : 3 ≤ e.length) : cleanElem rooted kept e = e :: kept := by
  have h1 : e ≠ [] := by intro h; simp [h] at he
  have h2 : e ≠ ['.'] := by intro h; simp [h] at he
  have h3 : e ≠ ['.', '.'] := by intro h; simp [h] at he
  simp [cleanElem, h1, h2, h3]

/-- Cleaning a path that ends in a dot followed by a separator-free suffix keeps
the suffix, after a prefix that does not depend on it. -/
theorem Clean_append_suffix (x : List Char) :
    ∃ pre, ∀ t, '/' ∉ t → 2 ≤ t.length → Clean (x ++ '.' :: t) = pre ++ '.' :: t := by
  obtain ⟨init, last, -, h2⟩ := pathElems_append x
  obtain ⟨pj, hpj⟩ := joinElems_snoc
    ((init.foldl (cleanElem ((x ++ ['.']).head? = some '/')) []).reverse)
  refine ⟨(if (x ++ ['.']).head? = some '/' then ['/'] else []) ++ pj ++ last, fun t ht hlen => ?_⟩
  have hs : '/' ∉ '.' :: t := by simp [ht]
  have hhead : (x ++ '.' :: t).head? = (x ++ ['.']).head? := by cases x <;> simp
  have hlong : 3 ≤ (last ++ '.' :: t).length := by simp; omega
  unfold Clean
  simp only [hhead, h2 _ hs, List.foldl_append, List.foldl_cons, List.foldl_nil,
    cleanElem_of_long _ _ _ hlong, List.reverse_cons, hpj]
  split <;> simp_all

theorem levelFile_data (B level : String) :
    (B ++ "." ++ level ++ ".log").data = B.data ++ '.' :: (level.data ++ ['.', 'l', 'o', 'g']) := by
  simp [String.data_append]

theorem levelFile_ne_empty (B level : String) : B ++ "." ++ level ++ ".log" ≠ "" := by
  intro h
  have := congrArg String.data h
  rw [levelFile_data] at this
  simp at this

theorem Join_level (D B : String) :
    ∃ pre : List Char, ∀ level : String, '/' ∉ level.data →
      Join [D, B ++ "." ++ level ++ ".log"]
        = String.mk (pre ++ '.' :: (level.data ++ ['.', 'l', 'o', 'g'])) := by
  by_cases hD : D = ""
  · obtain ⟨pre, hpre⟩ := Clean_append_suffix B.data
    refine ⟨pre, fun level hl => ?_⟩
    have h := hpre (level.data ++ ['.', 'l', 'o', 'g']) (by simp [hl]) (by simp)
    simp [Join, dropEmpty, hD, levelFile_ne_empty, joinElems, levelFile_data, h]
  · obtain ⟨pre, hpre⟩ := Clean_append_suffix (D.data ++ '/' :: B.data)
    refine ⟨pre, fun level hl => ?_⟩
    have h := hpre (level.data ++ ['.', 'l', 'o', 'g']) (by simp [hl]) (by simp)
    simp only [List.append_assoc, List.cons_append] at h
    simp [Join, dropEmpty, hD, joinElems, levelFile_data, h]

theorem Join_level_injective (D B l₁ l₂ : String) (h₁ : '/' ∉ l₁.data) (h₂ : '/' ∉ l₂.data)
    (h : Join [D, B ++ "." ++ l₁ ++ ".log"] = Join [D, B ++ "." ++ l₂ ++ ".log"]) : l₁ = l₂ := by
  obtain ⟨pre, hpre⟩ := Join_level D B
  rw [hpre l₁ h₁, hpre l₂ h₂] at h
  have h' := congrArg String.data h
  simp at h'
  exact String.ext h'

/-! ## The loop of `GetFileLogs` -/

theorem fileSink_afterRound (cfg : Config) (fileName level : String) :
    fileSink (afterRound cfg fileName level).File fileName = fileSink cfg.File fileName := by
  funext l
  by_cases h : cfg.File.MaxSize = 0 <;> simp [fileSink, afterRound, h, defaultLogMaxSize]

theorem loop_cons_ok (h : Host) (fileName l : String) (ls : List String) (cfg : Config)
    (acc : List WriteSyncer)
    (h0 : isDirectory h (Join [cfg.File.LogDir, fileName ++ "." ++ l ++ ".log"]) = false) :
    GetFileLogs.loop h fileName (l :: ls) cfg acc
      = GetFileLogs.loop h fileName ls (afterRound cfg fileName l)
          (acc ++ [fileSink cfg.File fileName l]) := by
  by_cases hz : cfg.File.MaxSize = 0 <;>
    simp [GetFileLogs.loop, initFileLog, h0, hz, afterRound, fileSink]

theorem loop_cons_dir (h : Host) (fileName l : String) (ls : List String) (cfg : Config)
    (acc : List WriteSyncer)
    (h0 : isDirectory h (Join [cfg.File.LogDir, fileName ++ "." ++ l ++ ".log"]) = true) :
    (GetFileLogs.loop h fileName (l :: ls) cfg acc).err
        = some (.wrap .directoryAsLogFile "init file log failed") ∧
      (GetFileLogs.loop h fileName (l :: ls) cfg acc).fileLogs = [] := by
  simp [GetFileLogs.loop, initFileLog, h0]

theorem loop_ok (h : Host) (fileName : String) (levels : List String) :
    ∀ (cfg : Config) (acc : List WriteSyncer),
      (∀ l ∈ levels, isDirectory h (Join [cfg.File.LogDir, fileName ++ "." ++ l ++ ".log"]) = false) →
      (GetFileLogs.loop h fileName levels cfg acc).err = none ∧
      (GetFileLogs.loop h fileName levels cfg acc).fileLogs
        = acc ++ levels.map (fileSink cfg.File fileName) := by
  induction levels with
  | nil => intro cfg acc _; simp [GetFileLogs.loop]
  | cons l ls ih =>
    intro cfg acc hdir
    rw [loop_cons_ok h fileName l ls cfg acc (hdir l (by simp))]
    have hrest : ∀ l' ∈ ls, isDirectory h
        (Join [(afterRound cfg fileName l).File.LogDir, fileName ++ "." ++ l' ++ ".log"]) = false :=
      fun l' hl' => hdir l' (by simp [hl'])
    have := ih (afterRound cfg fileName l) (acc ++ [fileSink cfg.File fileName l]) hrest
    rw [fileSink_afterRound] at this
    simpa using this

theorem loop_dir (h : Host) (fileName : String) (levels : List String) :
    ∀ (cfg : Config) (acc : List WriteSyncer),
      (∃ l ∈ levels, isDirectory h (Join [cfg.File.LogDir, fileName ++ "." ++ l ++ ".log"]) = true) →
      (GetFileLogs.loop h fileName levels cfg acc).err
          = some (.wrap .directoryAsLogFile "init file log failed") ∧
      (GetFileLogs.loop h fileName levels cfg acc).fileLogs = [] := by
  induction levels with
  | nil => intro cfg acc hex; simp at hex
  | cons l ls ih =>
    intro cfg acc hex
    by_cases h0 : isDirectory h (Join [cfg.File.LogDir, fileName ++ "." ++ l ++ ".log"]) = true
    · exact loop_cons_dir h fileName l ls cfg acc h0
    · have h0' : isDirectory h (Join [cfg.File.LogDir, fileName ++ "." ++ l ++ ".log"]) = false := by
        simpa using h0
      rw [loop_cons_ok h fileName l ls cfg acc h0']
      apply ih
      obtain ⟨l', hl', hd⟩ := hex
      rcases List.mem_cons.mp hl' with rfl | hmem
      · exact absurd hd h0
      · exact ⟨l', hmem, hd⟩

/-- The file name left in the configuration by a loop that ends without an error. -/
theorem loop_cfg_Filename (h : Host) (fileName : String) (levels : List String) :
    ∀ (cfg : Config) (acc : List WriteSyncer),
      (GetFileLogs.loop h fileName levels cfg acc).err = none →
      (GetFileLogs.loop h fileName levels cfg acc).cfg.File.Filename
        = match levels.getLast? with
          | some l => fileName ++ "." ++ l ++ ".log"
          | none => cfg.File.Filename := by
  induction levels with
  | nil => intro cfg acc _; simp [GetFileLogs.loop]
  | cons l ls ih =>
    intro cfg acc hok
    by_cases h0 : isDirectory h (Join [cfg.File.LogDir, fileName ++ "." ++ l ++ ".log"]) = true
    · rw [(loop_cons_dir h fileName l ls cfg acc h0).1] at hok; simp at hok
    · have h0' : isDirectory h (Join [cfg.File.LogDir, fileName ++ "." ++ l ++ ".log"]) = false := by
        simpa using h0
      rw [loop_cons_ok h fileName l ls cfg acc h0'] at hok ⊢
      rw [ih _ _ hok]
      cases ls with
      | nil => simp [afterRound]
      | cons a as =>
        rw [List.getLast?_cons_cons]
        cases hl : (a :: as).getLast? with
        | none => simp at hl
        | some x => rfl

/-! ## Options -/

theorem foldl_keepsCore (opts : List ZapOption) (hopts : ∀ o ∈ opts, keepsCore o) :
    ∀ log : Logger, (opts.foldl (fun log o => o log) log).core = log.core := by
  induction opts with
  | nil => intro log; rfl
  | cons o os ih =>
    intro log
    have ho : keepsCore o := hopts o (by simp)
    have hos : ∀ p ∈ os, keepsCore p := fun p hp => hopts p (by simp [hp])
    simp only [List.foldl_cons]
    rw [ih hos, ho]

theorem buildOptions_keepsCore (cfg : Config) (errSink : WriteSyncer) :
    ∀ o ∈ cfg.buildOptions errSink, keepsCore o := by
  intro o ho
  simp only [Config.buildOptions, List.mem_append, List.mem_singleton] at ho
  rcases ho with ((rfl | ho) | ho) | ho
  · intro log; rfl
  · split at ho
    · rw [List.mem_singleton.mp ho]; intro log; rfl
    · simp at ho
  · split at ho
    · simp at ho
    · rw [List.mem_singleton.mp ho]; intro log; rfl
  · split at ho
    · simp at ho
    · rw [List.mem_singleton.mp ho]; intro log; rfl

theorem New_append (core : Core) (a b : List ZapOption) :
    New core (a ++ b) = b.foldl (fun log o => o log) (New core a) := by
  simp [New, List.foldl_append]

theorem New_buildOptions_core (core : Core) (cfg : Config) (errSink : WriteSyncer) :
    (New core (cfg.buildOptions errSink)).core = core := by
  unfold New
  rw [foldl_keepsCore _ (buildOptions_keepsCore cfg errSink)]

/-! ## The cores of `InitLoggerWithWriteSyncer` -/

theorem range_LevelList : List.range LevelList.length = [0, 1, 2, 3, 4] := by decide

theorem exists_five {α : Type} (l : List α) (h : 5 ≤ l.length) :
    ∃ a b c d e rest, l = a :: b :: c :: d :: e :: rest := by
  match l, h with
  | a :: b :: c :: d :: e :: rest, _ => exact ⟨a, b, c, d, e, rest, rfl⟩

theorem cores_five (h : Host) (cfg : Config) (a b c d e : WriteSyncer) (rest : List WriteSyncer) :
    InitLoggerWithWriteSyncer.cores h cfg (a :: b :: c :: d :: e :: rest)
      = .ok [NewCore a debugLevel, NewCore b infoLevel, NewCore c warnLevel,
             NewCore d errorLevel, NewCore e fatalLevel] := by
  simp [InitLoggerWithWriteSyncer.cores, range_LevelList, InitLoggerWithWriteSyncer.loop, levelList]

theorem cores_one_ok (h : Host) (cfg : Config) (o : WriteSyncer) (M : Level)
    (hM : Level.UnmarshalText h.ToLower cfg.Level = .ok M) :
    InitLoggerWithWriteSyncer.cores h cfg [o] = .ok [NewCore o (Level.Enabled M)] := by
  simp [InitLoggerWithWriteSyncer.cores, hM]

theorem cores_one_err (h : Host) (cfg : Config) (o : WriteSyncer) (e : Err)
    (hM : Level.UnmarshalText h.ToLower cfg.Level = .error e) :
    InitLoggerWithWriteSyncer.cores h cfg [o] = .err e := by
  simp [InitLoggerWithWriteSyncer.cores, hM]

theorem cores_short (h : Host) (cfg : Config) (output : List WriteSyncer)
    (h1 : output.length ≠ 1) (h5 : output.length < 5) :
    ∃ m, InitLoggerWithWriteSyncer.cores h cfg output = .panic m := by
  match output, h1, h5 with
  | [], _, _ => exact ⟨_, by simp [InitLoggerWithWriteSyncer.cores, range_LevelList, InitLoggerWithWriteSyncer.loop]; rfl⟩
  | [a, b], _, _ => exact ⟨_, by simp [InitLoggerWithWriteSyncer.cores, range_LevelList, InitLoggerWithWriteSyncer.loop, levelList]; rfl⟩
  | [a, b, c], _, _ => exact ⟨_, by simp [InitLoggerWithWriteSyncer.cores, range_LevelList, InitLoggerWithWriteSyncer.loop, levelList]; rfl⟩
  | [a, b, c, d], _, _ => exact ⟨_, by simp [InitLoggerWithWriteSyncer.cores, range_LevelList, InitLoggerWithWriteSyncer.loop, levelList]; rfl⟩

/-! ## `InitLoggerWithWriteSyncer` -/

theorem getElem?_last {α : Type} (l : List α) (hne : l ≠ []) :
    l[l.length - 1]? = some (l.getLast hne) := by
  rw [← List.getLast?_eq_getElem?, List.getLast?_eq_getLast _ hne]

theorem InitLoggerWithWriteSyncer_of_cores (h : Host) (cfg : Config) (output : List WriteSyncer)
    (opts : List ZapOption) (cs : List ioCore) (hne : output ≠ [])
    (hcs : InitLoggerWithWriteSyncer.cores h cfg output = .ok cs) :
    InitLoggerWithWriteSyncer h cfg output opts
      = .ok (opts.foldl (fun log o => o log)
          (New (NewTee cs) (cfg.buildOptions (output.getLast hne)))) := by
  simp [InitLoggerWithWriteSyncer, hcs, getElem?_last output hne, New_append]

theorem InitLoggerWithWriteSyncer_err (h : Host) (cfg : Config) (output : List WriteSyncer)
    (opts : List ZapOption) (e : Err)
    (hcs : InitLoggerWithWriteSyncer.cores h cfg output = .err e) :
    InitLoggerWithWriteSyncer h cfg output opts = .err e := by
  simp [InitLoggerWithWriteSyncer, hcs]

theorem InitLoggerWithWriteSyncer_panic (h : Host) (cfg : Config) (output : List WriteSyncer)
    (opts : List ZapOption) (m : String)
    (hcs : InitLoggerWithWriteSyncer.cores h cfg output = .panic m) :
    InitLoggerWithWriteSyncer h cfg output opts = .panic m := by
  simp [InitLoggerWithWriteSyncer, hcs]

theorem UnmarshalText_cases (toLower : String → String) (text : String) :
    (∃ M, Level.UnmarshalText toLower text = .ok M) ∨
      Level.UnmarshalText toLower text = .error (.unrecognizedLevel text) := by
  unfold Level.UnmarshalText
  cases Level.unmarshalText text with
  | some l => exact Or.inl ⟨l, rfl⟩
  | none =>
    cases Level.unmarshalText (toLower text) with
    | some l => exact Or.inl ⟨l, rfl⟩
    | none => exact Or.inr rfl

/-- With at least five sinks the call succeeds, whatever the level text is. -/
theorem InitLoggerWithWriteSyncer_five (h : Host) (cfg : Config) (output : List WriteSyncer)
    (opts : List ZapOption) (h5 : 5 ≤ output.length) :
    (InitLoggerWithWriteSyncer h cfg output opts).isOk = true := by
  obtain ⟨a, b, c, d, e, rest, rfl⟩ := exists_five output h5
  rw [InitLoggerWithWriteSyncer_of_cores h cfg _ opts _ (by simp) (cores_five h cfg a b c d e rest)]
  rfl

theorem InitLoggerWithWriteSyncer_one (h : Host) (cfg : Config) (o : WriteSyncer)
    (opts : List ZapOption) :
    (∀ M, Level.UnmarshalText h.ToLower cfg.Level = .ok M →
      InitLoggerWithWriteSyncer h cfg [o] opts
        = .ok (opts.foldl (fun log p => p log)
            (New (.io (NewCore o (Level.Enabled M))) (cfg.buildOptions o)))) ∧
    (∀ e, Level.UnmarshalText h.ToLower cfg.Level = .error e →
      InitLoggerWithWriteSyncer h cfg [o] opts = .err e) := by
  constructor
  · intro M hM
    rw [InitLoggerWithWriteSyncer_of_cores h cfg [o] opts _ (by simp) (cores_one_ok h cfg o M hM)]
    rfl
  · intro e he
    exact InitLoggerWithWriteSyncer_err h cfg [o] opts e (cores_one_err h cfg o e he)

/-! ## Emission -/

theorem Write_io (log : Logger) (c : ioCore) (hc : log.core = .io c) (lvl : Level) :
    log.Write lvl = if c.enab lvl = true then [c.out] else [] := by
  by_cases he : c.enab lvl = true <;> simp [Logger.Write, Logger.check, hc, Core.Enabled, Core.Check, he]

theorem Write_multi (log : Logger) (cs : List ioCore) (hc : log.core = .multi cs) (lvl : Level) :
    log.Write lvl = (cs.filter (fun c => c.enab lvl)).map (fun c => c.out) := by
  simp only [Logger.Write, Logger.check, hc, Core.Enabled, Core.Check]
  split
  · rename_i hcond
    have hany := hcond.2
    simp only [List.any_eq_false] at hany
    have : cs.filter (fun c => c.enab lvl) = [] := by
      rw [List.filter_eq_nil_iff]; intro c hcm; simpa using hany c hcm
    simp [this]
  · rfl

theorem names_severities : LevelList.map Level.unmarshalText = severities.map some := by decide

theorem GetFileLogs_err_iff (h : Host) (cfg : Config) :
    (GetFileLogs h cfg).err ≠ none ↔ ∃ l ∈ LevelList, isDirectory h (levelPath cfg l) = true := by
  constructor
  · intro herr
    by_contra hno
    have hall : ∀ l ∈ LevelList,
        isDirectory h (Join [cfg.File.LogDir, cfg.File.Filename ++ "." ++ l ++ ".log"]) = false := by
      intro l hl
      by_contra hd
      exact hno ⟨l, hl, by simpa [levelPath] using hd⟩
    exact herr (loop_ok h cfg.File.Filename LevelList cfg [] hall).1
  · intro hex
    have := (loop_dir h cfg.File.Filename LevelList cfg [] hex).1
    rw [GetFileLogs, this]
    simp

theorem GetFileLogs_ok (h : Host) (cfg : Config) (hok : (GetFileLogs h cfg).err = none) :
    (GetFileLogs h cfg).fileLogs
      = [levelSink cfg "DEBUG", levelSink cfg "INFO", levelSink cfg "WARN",
         levelSink cfg "ERROR", levelSink cfg "FATAL"] := by
  have hall : ∀ l ∈ LevelList,
      isDirectory h (Join [cfg.File.LogDir, cfg.File.Filename ++ "." ++ l ++ ".log"]) = false := by
    intro l hl
    by_contra hd
    exact (GetFileLogs_err_iff h cfg).mpr ⟨l, hl, by simpa [levelPath] using hd⟩ hok
  have := (loop_ok h cfg.File.Filename LevelList cfg [] hall).2
  simpa [GetFileLogs, levelSink, LevelList] using this

theorem InitLoggerWithWriteSyncer_levels (h : Host) (cfg cfg2 : Config) (opts : List ZapOption)
    (hok : (GetFileLogs h cfg).err = none) :
    InitLoggerWithWriteSyncer.cores h cfg2 (GetFileLogs h cfg).fileLogs = .ok (levelCores cfg) ∧
    InitLoggerWithWriteSyncer h cfg2 (GetFileLogs h cfg).fileLogs opts
      = .ok (opts.foldl (fun log o => o log)
          (New (.multi (levelCores cfg)) (cfg2.buildOptions (levelSink cfg "FATAL")))) := by
  rw [GetFileLogs_ok h cfg hok]
  have hcs := cores_five h cfg2 (levelSink cfg "DEBUG") (levelSink cfg "INFO")
    (levelSink cfg "WARN") (levelSink cfg "ERROR") (levelSink cfg "FATAL") []
  exact ⟨hcs, InitLoggerWithWriteSyncer_of_cores h cfg2 _ opts _ (by simp) hcs⟩

/-- C1: in per-level file mode `InitLoggerWithWriteSyncer`, given the five sinks
built by `GetFileLogs`, builds five cores for every configuration it is called
with (so for every minimum level text); a record whose severity is the level
named at index `i` of `LevelList` is accepted by the core at index `i` and by no
other, that core writes to the file `<base>.<name>.log`, and a logger over these
cores writes the record to that file only. -/
theorem per_level_routing (h : Host) (cfg cfg2 : Config)
    (hok : (GetFileLogs h cfg).err = none) :
    ∃ cores : List ioCore,
      InitLoggerWithWriteSyncer.cores h cfg2 (GetFileLogs h cfg).fileLogs = .ok cores ∧
      (∃ log0 : Logger, log0.core = .multi cores ∧
        ∀ opts : List ZapOption,
          InitLoggerWithWriteSyncer h cfg2 (GetFileLogs h cfg).fileLogs opts
            = .ok (opts.foldl (fun log o => o log) log0)) ∧
      cores.length = 5 ∧
      ∀ (i : Nat) (name : String) (lvl : Level),
        LevelList[i]? = some name → Level.unmarshalText name = some lvl →
          cores.map (fun c => c.enab lvl) = (List.range 5).map (fun j => decide (j = i)) ∧
          cores[i]?.map (fun c => c.out) = some (levelSink cfg name) ∧
          ∀ log : Logger, log.core = .multi cores → log.Write lvl = [levelSink cfg name] := by
  obtain ⟨hcs, hrun⟩ := InitLoggerWithWriteSyncer_levels h cfg cfg2 [] hok
  refine ⟨levelCores cfg, hcs, ⟨_, New_buildOptions_core _ cfg2 (levelSink cfg "FATAL"),
    fun opts => (InitLoggerWithWriteSyncer_levels h cfg cfg2 opts hok).2⟩, rfl, ?_⟩
  intro i name lvl hname hlvl
  have hW : ∀ (log : Logger) (cs : List ioCore) (s : WriteSyncer), log.core = .multi cs →
      (cs.filter (fun c => c.enab lvl)).map (fun c => c.out) = [s] → log.Write lvl = [s] :=
    fun log cs s hc hf => by rw [Write_multi log cs hc, hf]
  match i, hname with
  | 0, hname =>
    simp [LevelList] at hname; subst hname
    simp [Level.unmarshalText] at hlvl; subst hlvl
    exact ⟨rfl, rfl, fun log hc => hW log _ _ hc rfl⟩
  | 1, hname =>
    simp [LevelList] at hname; subst hname
    simp [Level.unmarshalText] at hlvl; subst hlvl
    exact ⟨rfl, rfl, fun log hc => hW log _ _ hc rfl⟩
  | 2, hname =>
    simp [LevelList] at hname; subst hname
    simp [Level.unmarshalText] at hlvl; subst hlvl
    exact ⟨rfl, rfl, fun log hc => hW log _ _ hc rfl⟩
  | 3, hname =>
    simp [LevelList] at hname; subst hname
    simp [Level.unmarshalText] at hlvl; subst hlvl
    exact ⟨rfl, rfl, fun log hc => hW log _ _ hc rfl⟩
  | 4, hname =>
    simp [LevelList] at hname; subst hname
    simp [Level.unmarshalText] at hlvl; subst hlvl
    exact ⟨rfl, rfl, fun log hc => hW log _ _ hc rfl⟩
  | n + 5, hname => simp [LevelList] at hname

theorem Emit_ok (g : Globals) (log : Logger) (hg : L g = .ok log) (lvl : Level) :
    Emit g lvl = .ok (log.Write lvl) := by
  simp [Emit, hg]

theorem IsEnabled_ok (g : Globals) (log : Logger) (hg : L g = .ok log) (lvl : Level) :
    IsEnabled g lvl = .ok (log.core.Enabled lvl) := by
  simp [IsEnabled, hg]

theorem Enabled_iff (c : Core) (lvl : Level) :
    c.Enabled lvl = true ↔ ∃ io ∈ c.cores, io.enab lvl = true := by
  cases c with
  | nop => simp [Core.Enabled, Core.cores]
  | io c => simp [Core.Enabled, Core.cores]
  | multi cs => simp [Core.Enabled, Core.cores]

/-- C2: in single-sink mode, when the minimum level text parses to `M`,
`InitLoggerWithWriteSyncer` returns the logger `log0` it composes, with the
caller's options applied to it.  `log0` writes a record of severity `lvl` to the
one sink when `M ≤ lvl` and to nothing when `lvl < M`, and so does the returned
logger for all options that leave the core in place; emitting through a handle
that holds such a logger returns normally in both cases.  The order is the one
of the zap levels, in which the five severities named by `LevelList` are
strictly increasing. -/
theorem single_sink_threshold (h : Host) (cfg : Config) (o : WriteSyncer) (M : Level)
    (hM : Level.UnmarshalText h.ToLower cfg.Level = .ok M) :
    ∃ log0 : Logger,
      (∀ opts : List ZapOption,
        InitLoggerWithWriteSyncer h cfg [o] opts = .ok (opts.foldl (fun log p => p log) log0)) ∧
      (∀ lvl : Level, M ≤ lvl → log0.Write lvl = [o]) ∧
      (∀ lvl : Level, lvl < M → log0.Write lvl = []) ∧
      (∀ opts : List ZapOption, (∀ p ∈ opts, keepsCore p) →
        ∀ (g : Globals), L g = .ok (opts.foldl (fun log p => p log) log0) →
          ∀ lvl : Level, Emit g lvl = .ok (if M ≤ lvl then [o] else [])) ∧
      LevelList.map Level.unmarshalText = severities.map some ∧
      severities.Pairwise (fun a b => a < b) := by
  have hW : ∀ opts : List ZapOption, (∀ p ∈ opts, keepsCore p) → ∀ lvl : Level,
      (opts.foldl (fun log p => p log)
        (New (.io (NewCore o (Level.Enabled M))) (cfg.buildOptions o))).Write lvl
        = if M ≤ lvl then [o] else [] := by
    intro opts hopts lvl
    have hcore : (opts.foldl (fun log p => p log)
        (New (.io (NewCore o (Level.Enabled M))) (cfg.buildOptions o))).core
          = .io (NewCore o (Level.Enabled M)) := by
      rw [foldl_keepsCore opts hopts, New_buildOptions_core]
    rw [Write_io _ _ hcore]
    by_cases hl : M ≤ lvl <;> simp [NewCore, Level.Enabled, hl]
  have hW0 := hW [] (by simp)
  simp only [List.foldl_nil] at hW0
  refine ⟨_, fun opts => (InitLoggerWithWriteSyncer_one h cfg o opts).1 M hM, ?_, ?_, ?_,
    names_severities, by decide⟩
  · intro lvl hl; rw [hW0, if_pos hl]
  · intro lvl hl; rw [hW0, if_neg (not_le.mpr hl)]
  · intro opts hopts g hg lvl; rw [Emit_ok g _ hg, hW opts hopts]

/-- C3: for a handle that holds a logger, each of `IsDebugEnabled`,
`IsInfoEnabled` and `IsWarnEnabled` returns true exactly when one of the cores
of the logger's core accepts the level.  For a logger returned by
`InitLoggerWithWriteSyncer`, with no further options or with options that leave
the core in place: over the five sinks of `GetFileLogs` all three queries return
true, whatever the minimum level text; over one sink with minimum `M` the query
for a level returns whether the level is at least `M`. -/
theorem enabled_queries (h : Host) (cfg : Config) :
    (∀ (g : Globals) (log : Logger), L g = .ok log →
      ∃ d i w : Bool,
        IsDebugEnabled g = .ok d ∧ IsInfoEnabled g = .ok i ∧ IsWarnEnabled g = .ok w ∧
        (d = true ↔ ∃ c ∈ log.core.cores, c.enab DebugLevel = true) ∧
        (i = true ↔ ∃ c ∈ log.core.cores, c.enab InfoLevel = true) ∧
        (w = true ↔ ∃ c ∈ log.core.cores, c.enab WarnLevel = true)) ∧
    (∀ cfg1 : Config, (GetFileLogs h cfg1).err = none →
      ∀ opts : List ZapOption, (∀ p ∈ opts, keepsCore p) →
        ∃ log : Logger,
          InitLoggerWithWriteSyncer h cfg (GetFileLogs h cfg1).fileLogs opts = .ok log ∧
          ∀ g : Globals, L g = .ok log →
            IsDebugEnabled g = .ok true ∧ IsInfoEnabled g = .ok true ∧
              IsWarnEnabled g = .ok true) ∧
    (∀ (o : WriteSyncer) (M : Level), Level.UnmarshalText h.ToLower cfg.Level = .ok M →
      ∀ opts : List ZapOption, (∀ p ∈ opts, keepsCore p) →
        ∃ log : Logger,
          InitLoggerWithWriteSyncer h cfg [o] opts = .ok log ∧
          ∀ g : Globals, L g = .ok log →
            IsDebugEnabled g = .ok (decide (M ≤ DebugLevel)) ∧
              IsInfoEnabled g = .ok (decide (M ≤ InfoLevel)) ∧
              IsWarnEnabled g = .ok (decide (M ≤ WarnLevel))) := by
  refine ⟨?_, ?_, ?_⟩
  · intro g log hg
    exact ⟨_, _, _, IsEnabled_ok g log hg _, IsEnabled_ok g log hg _, IsEnabled_ok g log hg _,
      Enabled_iff _ _, Enabled_iff _ _, Enabled_iff _ _⟩
  · intro cfg1 hok opts hopts
    have hrun := (InitLoggerWithWriteSyncer_levels h cfg1 cfg opts hok).2
    have hcore : (opts.foldl (fun log o => o log)
        (New (.multi (levelCores cfg1)) (cfg.buildOptions (levelSink cfg1 "FATAL")))).core
          = .multi (levelCores cfg1) := by
      rw [foldl_keepsCore opts hopts, New_buildOptions_core]
    refine ⟨_, hrun, fun g hg => ?_⟩
    simp only [IsDebugEnabled, IsInfoEnabled, IsWarnEnabled, IsEnabled_ok g _ hg, hcore]
    exact ⟨rfl, rfl, rfl⟩
  · intro o M hM opts hopts
    have hrun := (InitLoggerWithWriteSyncer_one h cfg o opts).1 M hM
    have hcore : (opts.foldl (fun log p => p log)
        (New (.io (NewCore o (Level.Enabled M))) (cfg.buildOptions o))).core
          = .io (NewCore o (Level.Enabled M)) := by
      rw [foldl_keepsCore opts hopts, New_buildOptions_core]
    refine ⟨_, hrun, fun g hg => ?_⟩
    simp only [IsDebugEnabled, IsInfoEnabled, IsWarnEnabled, IsEnabled_ok g _ hg, hcore]
    exact ⟨rfl, rfl, rfl⟩

theorem no_sep_of_mem_LevelList (l : String) (hl : l ∈ LevelList) : '/' ∉ l.data := by
  simp only [LevelList, List.mem_cons, List.mem_singleton, List.not_mem_nil, or_false] at hl
  rcases hl with rfl | rfl | rfl | rfl | rfl <;> decide

theorem levelPath_injOn (cfg : Config) (l₁ l₂ : String) (h₁ : l₁ ∈ LevelList)
    (h₂ : l₂ ∈ LevelList) (heq : levelPath cfg l₁ = levelPath cfg l₂) : l₁ = l₂ :=
  Join_level_injective cfg.File.LogDir cfg.File.Filename l₁ l₂
    (no_sep_of_mem_LevelList l₁ h₁) (no_sep_of_mem_LevelList l₂ h₂) heq

/-- C4: when none of the five resolved paths is an existing directory,
`GetFileLogs` returns without an error exactly five sinks, in the order of
`LevelList`; the sink at index `i` is the rotating file whose path is the
directory joined with `<base>.<LevelList[i]>.log`; the five paths are pairwise
distinct, and so are the five sinks. -/
theorem GetFileLogs_sinks (h : Host) (cfg : Config)
    (hno : ∀ l ∈ LevelList, isDirectory h (levelPath cfg l) = false) :
    (GetFileLogs h cfg).err = none ∧
    (GetFileLogs h cfg).fileLogs.length = 5 ∧
    (GetFileLogs h cfg).fileLogs = LevelList.map (levelSink cfg) ∧
    (∀ (i : Nat) (name : String), LevelList[i]? = some name →
      ∃ lg : LumberjackLogger,
        (GetFileLogs h cfg).fileLogs[i]? = some (.lumberjack lg) ∧
        lg.Filename = Join [cfg.File.LogDir, cfg.File.Filename ++ "." ++ name ++ ".log"]) ∧
    (LevelList.map (levelPath cfg)).Nodup ∧
    (GetFileLogs h cfg).fileLogs.Nodup := by
  have hok : (GetFileLogs h cfg).err = none := by
    by_contra herr
    obtain ⟨l, hl, hd⟩ := (GetFileLogs_err_iff h cfg).mp herr
    rw [hno l hl] at hd
    exact absurd hd (by simp)
  have hlogs : (GetFileLogs h cfg).fileLogs = LevelList.map (levelSink cfg) :=
    GetFileLogs_ok h cfg hok
  have hpaths : (LevelList.map (levelPath cfg)).Nodup :=
    List.Nodup.map_on (fun l₁ h₁ l₂ h₂ heq => levelPath_injOn cfg l₁ l₂ h₁ h₂ heq) (by decide)
  refine ⟨hok, by rw [hlogs]; rfl, hlogs, ?_, hpaths, ?_⟩
  · intro i name hname
    refine ⟨{ Filename := levelPath cfg name,
              MaxSize := if cfg.File.MaxSize = 0 then defaultLogMaxSize else cfg.File.MaxSize,
              MaxBackups := cfg.File.MaxBackups, MaxAge := cfg.File.MaxDays,
              LocalTime := true }, ?_, rfl⟩
    rw [hlogs, List.getElem?_map, hname]
    rfl
  · rw [hlogs]
    refine List.Nodup.map_on (fun l₁ h₁ l₂ h₂ heq => ?_) (by decide)
    apply levelPath_injOn cfg l₁ l₂ h₁ h₂
    simp only [levelSink, fileSink, WriteSyncer.lumberjack.injEq, LumberjackLogger.mk.injEq] at heq
    exact heq.1

/-! ## `InitLogger` -/

theorem output_file (h : Host) (cfg : Config) (hB : cfg.File.Filename ≠ "") :
    InitLogger.output h cfg
      = match (GetFileLogs h cfg).err with
        | some e => (.error (.wrap e "init log file failed"), (GetFileLogs h cfg).cfg)
        | none => (.ok (GetFileLogs h cfg).fileLogs, (GetFileLogs h cfg).cfg) := by
  have hpos : cfg.File.Filename.length > 0 := by
    rcases Nat.eq_zero_or_pos cfg.File.Filename.length with h0 | h0
    · exact absurd (String.ext (List.length_eq_zero.mp h0)) hB
    · exact h0
  simp [InitLogger.output, hpos]

theorem output_console (h : Host) (cfg : Config) (hB : cfg.File.Filename = "") :
    InitLogger.output h cfg
      = match h.Open ["stdout"] with
        | .error e => (.error (.wrap e "init stdout log failed"), cfg)
        | .ok stdOut => (.ok [stdOut], cfg) := by
  simp [InitLogger.output, hB]

/-- The sink list `InitLogger` passes on has one or five entries. -/
theorem output_length (h : Host) (cfg cfg1 : Config) (output : List WriteSyncer)
    (hout : InitLogger.output h cfg = (.ok output, cfg1)) :
    (output.length = 1 ∧ cfg.File.Filename = "") ∨
      (output.length = 5 ∧ cfg.File.Filename ≠ "" ∧ (GetFileLogs h cfg).err = none ∧
        output = (GetFileLogs h cfg).fileLogs) := by
  by_cases hB : cfg.File.Filename = ""
  · left
    rw [output_console h cfg hB] at hout
    cases hopen : h.Open ["stdout"] with
    | error e => rw [hopen] at hout; simp at hout
    | ok s => rw [hopen] at hout; simp at hout; exact ⟨by rw [← hout.1]; rfl, hB⟩
  · right
    rw [output_file h cfg hB] at hout
    cases herr : (GetFileLogs h cfg).err with
    | some e => rw [herr] at hout; simp at hout
    | none =>
      rw [herr] at hout
      simp at hout
      refine ⟨?_, hB, rfl, hout.1.symm⟩
      rw [← hout.1, GetFileLogs_ok h cfg herr]
      rfl

/-- The outcome of `InitLogger` does not depend on the globals it starts from;
the globals are replaced on success and kept otherwise. -/
theorem InitLogger_from_empty (h : Host) (g : Globals) (cfg : Config) (opts : List ZapOption) :
    InitLogger h g cfg opts
      = ((InitLogger h .empty cfg opts).1,
         if (InitLogger h .empty cfg opts).1.isOk = true
           then (InitLogger h .empty cfg opts).2.1 else g,
         (InitLogger h .empty cfg opts).2.2) := by
  unfold InitLogger
  rcases hout : InitLogger.output h cfg with ⟨r, cfg1⟩
  cases r with
  | error e => simp [Res.isOk]
  | ok output =>
    simp only
    cases InitLoggerWithWriteSyncer h cfg1 output opts with
    | ok log => simp [Res.isOk]
    | err e => simp [Res.isOk]
    | panic m => simp [Res.isOk]

/-- A successful `InitLogger` stores a logger and the sugared wrapper of it. -/
theorem InitLogger_ok_stores (h : Host) (g : Globals) (cfg : Config) (opts : List ZapOption)
    (hok : (InitLogger h g cfg opts).1.isOk = true) :
    ∃ log : Logger, (InitLogger h g cfg opts).2.1
      = { _globalL := some log, _globalS := some log.Sugar } := by
  unfold InitLogger at hok ⊢
  rcases hout : InitLogger.output h cfg with ⟨r, cfg1⟩
  rw [hout] at hok
  cases r with
  | error e => simp [Res.isOk] at hok
  | ok output =>
    simp only at hok ⊢
    cases hrun : InitLoggerWithWriteSyncer h cfg1 output opts with
    | ok log => exact ⟨log, rfl⟩
    | err e => rw [hrun] at hok; simp [Res.isOk] at hok
    | panic m => rw [hrun] at hok; simp [Res.isOk] at hok

theorem InitLogger_file_err (h : Host) (g : Globals) (cfg : Config) (opts : List ZapOption)
    (hB : cfg.File.Filename ≠ "") (e : Err) (herr : (GetFileLogs h cfg).err = some e) :
    InitLogger h g cfg opts
      = (.err (.wrap e "init log file failed"), g, (GetFileLogs h cfg).cfg) := by
  simp [InitLogger, output_file h cfg hB, herr]

theorem InitLogger_file_ok (h : Host) (g : Globals) (cfg : Config) (opts : List ZapOption)
    (hB : cfg.File.Filename ≠ "") (hok : (GetFileLogs h cfg).err = none) :
    (InitLogger h g cfg opts).1.isOk = true := by
  have hfive : 5 ≤ (GetFileLogs h cfg).fileLogs.length := by
    rw [GetFileLogs_ok h cfg hok]; simp
  have hrun := InitLoggerWithWriteSyncer_five h (GetFileLogs h cfg).cfg
    (GetFileLogs h cfg).fileLogs opts hfive
  simp only [InitLogger, output_file h cfg hB, hok]
  cases hr : InitLoggerWithWriteSyncer h (GetFileLogs h cfg).cfg (GetFileLogs h cfg).fileLogs opts with
  | ok log => rfl
  | err e => rw [hr] at hrun; simp [Res.isOk] at hrun
  | panic m => rw [hr] at hrun; simp [Res.isOk] at hrun

theorem InitLogger_console_open_err (h : Host) (g : Globals) (cfg : Config)
    (opts : List ZapOption) (hB : cfg.File.Filename = "") (e : Err)
    (hopen : h.Open ["stdout"] = .error e) :
    InitLogger h g cfg opts = (.err (.wrap e "init stdout log failed"), g, cfg) := by
  simp [InitLogger, output_console h cfg hB, hopen]

theorem InitLogger_console_level_err (h : Host) (g : Globals) (cfg : Config)
    (opts : List ZapOption) (hB : cfg.File.Filename = "") (s : WriteSyncer)
    (hopen : h.Open ["stdout"] = .ok s) (e : Err)
    (hlev : Level.UnmarshalText h.ToLower cfg.Level = .error e) :
    InitLogger h g cfg opts = (.err (.wrap e "InitLoggerWithWriteSyncer failed"), g, cfg) := by
  simp [InitLogger, output_console h cfg hB, hopen,
    (InitLoggerWithWriteSyncer_one h cfg s opts).2 e hlev]

theorem InitLogger_console_ok (h : Host) (g : Globals) (cfg : Config)
    (opts : List ZapOption) (hB : cfg.File.Filename = "") (s : WriteSyncer)
    (hopen : h.Open ["stdout"] = .ok s) (M : Level)
    (hlev : Level.UnmarshalText h.ToLower cfg.Level = .ok M) :
    (InitLogger h g cfg opts).1.isOk = true := by
  simp [InitLogger, output_console h cfg hB, hopen,
    (InitLoggerWithWriteSyncer_one h cfg s opts).1 M hlev, Res.isOk]

/-- The three ways `InitLogger` fails, and no other. -/
theorem InitLogger_isErr_iff (h : Host) (g : Globals) (cfg : Config) (opts : List ZapOption) :
    (InitLogger h g cfg opts).1.isErr = true ↔
      (cfg.File.Filename ≠ "" ∧ ∃ l ∈ LevelList, isDirectory h (levelPath cfg l) = true) ∨
      (cfg.File.Filename = "" ∧ ∃ e, h.Open ["stdout"] = .error e) ∨
      (cfg.File.Filename = "" ∧ (∃ s, h.Open ["stdout"] = .ok s) ∧
        ∃ e, Level.UnmarshalText h.ToLower cfg.Level = .error e) := by
  by_cases hB : cfg.File.Filename = ""
  · cases hopen : h.Open ["stdout"] with
    | error e =>
      rw [InitLogger_console_open_err h g cfg opts hB e hopen]
      simp [Res.isErr, hB]
    | ok s =>
      rcases UnmarshalText_cases h.ToLower cfg.Level with ⟨M, hM⟩ | he
      · have hok := InitLogger_console_ok h g cfg opts hB s hopen M hM
        cases hr : (InitLogger h g cfg opts).1 with
        | ok v => simp [Res.isErr, hB, hM]
        | err e => rw [hr] at hok; simp [Res.isOk] at hok
        | panic m => rw [hr] at hok; simp [Res.isOk] at hok
      · rw [InitLogger_console_level_err h g cfg opts hB s hopen _ he]
        simp [Res.isErr, hB, he]
  · cases herr : (GetFileLogs h cfg).err with
    | some e =>
      have hex := (GetFileLogs_err_iff h cfg).mp (by rw [herr]; simp)
      rw [InitLogger_file_err h g cfg opts hB e herr]
      simp [Res.isErr, hB, hex]
    | none =>
      have hok := InitLogger_file_ok h g cfg opts hB herr
      have hno : ¬ ∃ l ∈ LevelList, isDirectory h (levelPath cfg l) = true :=
        fun hex => (GetFileLogs_err_iff h cfg).mpr hex herr
      cases hr : (InitLogger h g cfg opts).1 with
      | ok v => simp [Res.isErr, hB, hno]
      | err e => rw [hr] at hok; simp [Res.isOk] at hok
      | panic m => rw [hr] at hok; simp [Res.isOk] at hok

/-- C5: when `InitLogger` returns an error, the two globals after the call are
the ones before it, so `L` and `S` answer as before; and the error has one of
three causes: a per-level path that is an existing directory, a console sink
that does not open, or, over the console sink, a minimum level text that does
not parse. -/
theorem InitLogger_error_keeps_globals (h : Host) (g : Globals) (cfg : Config)
    (opts : List ZapOption) (herr : (InitLogger h g cfg opts).1.isErr = true) :
    (InitLogger h g cfg opts).2.1 = g ∧
    L (InitLogger h g cfg opts).2.1 = L g ∧
    S (InitLogger h g cfg opts).2.1 = S g ∧
    ((cfg.File.Filename ≠ "" ∧ ∃ l ∈ LevelList, isDirectory h (levelPath cfg l) = true) ∨
      (cfg.File.Filename = "" ∧ ∃ e, h.Open ["stdout"] = .error e) ∨
      (cfg.File.Filename = "" ∧ (∃ s, h.Open ["stdout"] = .ok s) ∧
        ∃ e, Level.UnmarshalText h.ToLower cfg.Level = .error e)) := by
  have hcause := (InitLogger_isErr_iff h g cfg opts).mp herr
  have hind := InitLogger_from_empty h g cfg opts
  have hnot : (InitLogger h .empty cfg opts).1.isOk = false := by
    have h1 : (InitLogger h g cfg opts).1 = (InitLogger h .empty cfg opts).1 := by rw [hind]
    rw [h1] at herr
    cases hr : (InitLogger h .empty cfg opts).1 with
    | ok v => rw [hr] at herr; simp [Res.isErr] at herr
    | err e => rfl
    | panic m => rfl
  have hg : (InitLogger h g cfg opts).2.1 = g := by rw [hind]; simp [hnot]
  exact ⟨hg, by rw [hg], by rw [hg], hcause⟩

/-- C6: for a configuration with a non-empty base filename, `GetFileLogs`
returns an error exactly when one of the five resolved paths
`<dir>/<base>.<LEVEL>.log` exists and is a directory, and then it returns no
sinks; `InitLogger` returns an error in exactly the same case. -/
theorem GetFileLogs_fails_iff (h : Host) (cfg : Config) (hB : cfg.File.Filename ≠ "") :
    ((GetFileLogs h cfg).err ≠ none ↔
      ∃ l ∈ LevelList, ∃ st, h.Stat (levelPath cfg l) = some st ∧ st.IsDir = true) ∧
    ((GetFileLogs h cfg).err ≠ none → (GetFileLogs h cfg).fileLogs = []) ∧
    (∀ (g : Globals) (opts : List ZapOption),
      (InitLogger h g cfg opts).1.isErr = true ↔
        ∃ l ∈ LevelList, ∃ st, h.Stat (levelPath cfg l) = some st ∧ st.IsDir = true) := by
  have hdir : ∀ p : String,
      isDirectory h p = true ↔ ∃ st, h.Stat p = some st ∧ st.IsDir = true := by
    intro p
    unfold isDirectory
    cases h.Stat p with
    | none => simp
    | some st => simp
  have hex : (∃ l ∈ LevelList, isDirectory h (levelPath cfg l) = true) ↔
      ∃ l ∈ LevelList, ∃ st, h.Stat (levelPath cfg l) = some st ∧ st.IsDir = true := by
    constructor
    · rintro ⟨l, hl, hd⟩; exact ⟨l, hl, (hdir _).mp hd⟩
    · rintro ⟨l, hl, hd⟩; exact ⟨l, hl, (hdir _).mpr hd⟩
  refine ⟨(GetFileLogs_err_iff h cfg).trans hex, ?_, ?_⟩
  · intro herr
    exact (loop_dir h cfg.File.Filename LevelList cfg [] ((GetFileLogs_err_iff h cfg).mp herr)).2
  · intro g opts
    rw [InitLogger_isErr_iff, ← hex]
    simp [hB]

/-- C7: for a sink list of length 1 or 5, `InitLoggerWithWriteSyncer` returns an
error exactly when the list has length 1 and the minimum level text does not
parse, and returns a logger otherwise; with five sinks it returns a logger
whatever the text is, and with one sink each of the five level names is
accepted in upper and in lower case. -/
theorem InitLoggerWithWriteSyncer_error_iff (h : Host) (cfg : Config)
    (output : List WriteSyncer) (opts : List ZapOption)
    (hlen : output.length = 1 ∨ output.length = 5) :
    ((InitLoggerWithWriteSyncer h cfg output opts).isErr = true ↔
      output.length = 1 ∧ ∃ e, Level.UnmarshalText h.ToLower cfg.Level = .error e) ∧
    ((InitLoggerWithWriteSyncer h cfg output opts).isErr = false →
      (InitLoggerWithWriteSyncer h cfg output opts).isOk = true) ∧
    (output.length = 5 → (InitLoggerWithWriteSyncer h cfg output opts).isOk = true) ∧
    (output.length = 1 →
      cfg.Level ∈ ["DEBUG", "INFO", "WARN", "ERROR", "FATAL",
                   "debug", "info", "warn", "error", "fatal"] →
      (InitLoggerWithWriteSyncer h cfg output opts).isOk = true) := by
  rcases hlen with h1 | h5
  · obtain ⟨o, rfl⟩ := List.length_eq_one.mp h1
    obtain ⟨hokM, herrM⟩ := InitLoggerWithWriteSyncer_one h cfg o opts
    rcases UnmarshalText_cases h.ToLower cfg.Level with ⟨M, hM⟩ | he
    · rw [hokM M hM]
      simp [Res.isErr, Res.isOk, hM]
    · rw [herrM _ he]
      refine ⟨by simp [Res.isErr, he], by simp [Res.isErr], by simp, ?_⟩
      intro _ hmem
      exfalso
      simp only [List.mem_cons, List.mem_singleton, List.not_mem_nil, or_false] at hmem
      rcases hmem with hm | hm | hm | hm | hm | hm | hm | hm | hm | hm <;>
        simp [hm, Level.UnmarshalText, Level.unmarshalText] at he
  · have hok := InitLoggerWithWriteSyncer_five h cfg output opts (by omega)
    have hne : (InitLoggerWithWriteSyncer h cfg output opts).isErr = false := by
      cases hr : InitLoggerWithWriteSyncer h cfg output opts with
      | ok v => rfl
      | err e => rw [hr] at hok; simp [Res.isOk] at hok
      | panic m => rw [hr] at hok; simp [Res.isOk] at hok
    refine ⟨?_, fun _ => hok, fun _ => hok, fun _ _ => hok⟩
    rw [hne]
    constructor
    · intro hf; simp at hf
    · rintro ⟨hone, -⟩; omega

theorem InitLoggerWithWriteSyncer_one_no_panic (h : Host) (cfg : Config) (o : WriteSyncer)
    (opts : List ZapOption) : (InitLoggerWithWriteSyncer h cfg [o] opts).isPanic = false := by
  obtain ⟨hokM, herrM⟩ := InitLoggerWithWriteSyncer_one h cfg o opts
  rcases UnmarshalText_cases h.ToLower cfg.Level with ⟨M, hM⟩ | he
  · rw [hokM M hM]; rfl
  · rw [herrM _ he]; rfl

theorem InitLoggerWithWriteSyncer_panic_iff (h : Host) (cfg : Config)
    (output : List WriteSyncer) (opts : List ZapOption) :
    (InitLoggerWithWriteSyncer h cfg output opts).isPanic = false ↔
      (output.length = 1 ∨ 5 ≤ output.length) := by
  constructor
  · intro hnp
    by_contra hlen
    obtain ⟨m, hm⟩ := cores_short h cfg output (by omega) (by omega)
    rw [InitLoggerWithWriteSyncer_panic h cfg output opts m hm] at hnp
    simp [Res.isPanic] at hnp
  · rintro (h1 | h5)
    · obtain ⟨o, rfl⟩ := List.length_eq_one.mp h1
      exact InitLoggerWithWriteSyncer_one_no_panic h cfg o opts
    · have hok := InitLoggerWithWriteSyncer_five h cfg output opts h5
      cases hr : InitLoggerWithWriteSyncer h cfg output opts with
      | ok v => rfl
      | err e => rfl
      | panic m => rw [hr] at hok; simp [Res.isOk] at hok

/-- C10: the sink list `InitLogger` passes to `InitLoggerWithWriteSyncer` has
length 1 (console mode) or 5 (file mode), the length of `LevelList` and of
`levelList`, and `InitLogger` never panics; `InitLoggerWithWriteSyncer` by
itself stays in range, that is does not panic, exactly for the lists of length
1 or at least 5. -/
theorem index_accesses_in_range (h : Host) (g : Globals) (cfg : Config)
    (opts : List ZapOption) :
    (∀ (output : List WriteSyncer) (cfg1 : Config),
      InitLogger.output h cfg = (.ok output, cfg1) →
        (output.length = 1 ∧ cfg.File.Filename = "") ∨
        (output.length = 5 ∧ cfg.File.Filename ≠ "")) ∧
    LevelList.length = 5 ∧ levelList.length = 5 ∧
    (InitLogger h g cfg opts).1.isPanic = false ∧
    (∀ output : List WriteSyncer,
      (InitLoggerWithWriteSyncer h cfg output opts).isPanic = false ↔
        (output.length = 1 ∨ 5 ≤ output.length)) := by
  refine ⟨?_, rfl, rfl, ?_, fun output => InitLoggerWithWriteSyncer_panic_iff h cfg output opts⟩
  · intro output cfg1 hout
    rcases output_length h cfg cfg1 output hout with h1 | h5
    · exact Or.inl h1
    · exact Or.inr ⟨h5.1, h5.2.1⟩
  · unfold InitLogger
    rcases hout : InitLogger.output h cfg with ⟨r, cfg1⟩
    cases r with
    | error e => rfl
    | ok output =>
      have hlen : output.length = 1 ∨ 5 ≤ output.length := by
        rcases output_length h cfg cfg1 output hout with h1 | h5
        · exact Or.inl h1.1
        · exact Or.inr (by omega)
      have hnp := (InitLoggerWithWriteSyncer_panic_iff h cfg1 output opts).mpr hlen
      simp only
      cases hr : InitLoggerWithWriteSyncer h cfg1 output opts with
      | ok v => rfl
      | err e => rfl
      | panic m => rw [hr] at hnp; simp [Res.isPanic] at hnp

theorem Write_mem_cores (log : Logger) (lvl : Level) (s : WriteSyncer)
    (hs : s ∈ log.Write lvl) : ∃ c ∈ log.core.cores, c.out = s := by
  unfold Logger.Write Logger.check at hs
  split at hs
  · simp at hs
  · obtain ⟨c, hc, rfl⟩ := List.mem_map.mp hs
    refine ⟨c, ?_, rfl⟩
    cases hcore : log.core with
    | nop => rw [hcore] at hc; simp [Core.Check] at hc
    | io c0 =>
      rw [hcore] at hc
      simp only [Core.Check] at hc
      split at hc
      · simpa [Core.cores] using hc
      · simp at hc
    | multi cs =>
      rw [hcore] at hc
      simp only [Core.Check] at hc
      exact (List.mem_filter.mp hc).1

/-- The loop of `InitLoggerWithWriteSyncer` binds sinks of the list only. -/
theorem loop_outs (output : List WriteSyncer) (idx : List Nat) :
    ∀ (acc cs : List ioCore), (∀ c ∈ acc, c.out ∈ output) →
      InitLoggerWithWriteSyncer.loop output idx acc = .ok cs → ∀ c ∈ cs, c.out ∈ output := by
  induction idx with
  | nil =>
    intro acc cs hacc hrun
    simp [InitLoggerWithWriteSyncer.loop] at hrun
    rw [← hrun]; exact hacc
  | cons i rest ih =>
    intro acc cs hacc hrun
    unfold InitLoggerWithWriteSyncer.loop at hrun
    cases ho : output[i]? with
    | none => rw [ho] at hrun; simp at hrun
    | some o =>
      cases he : levelList[i]? with
      | none => rw [ho, he] at hrun; simp at hrun
      | some enab =>
        rw [ho, he] at hrun
        simp only at hrun
        refine ih _ cs ?_ hrun
        intro c hc
        rcases List.mem_append.mp hc with hc | hc
        · exact hacc c hc
        · rw [List.mem_singleton.mp hc]
          exact List.getElem?_mem ho

theorem cores_outs (h : Host) (cfg : Config) (output : List WriteSyncer) (cs : List ioCore)
    (hcs : InitLoggerWithWriteSyncer.cores h cfg output = .ok cs) : ∀ c ∈ cs, c.out ∈ output := by
  unfold InitLoggerWithWriteSyncer.cores at hcs
  split at hcs
  · rename_i hone
    obtain ⟨o, rfl⟩ := List.length_eq_one.mp hone
    cases hM : Level.UnmarshalText h.ToLower cfg.Level with
    | error e => rw [hM] at hcs; simp at hcs
    | ok M =>
      rw [hM] at hcs
      simp at hcs
      rw [← hcs]
      simp [NewCore]
  · exact loop_outs output _ [] cs (by simp) hcs

theorem NewTee_cores (cs : List ioCore) : (NewTee cs).cores = cs := by
  match cs with
  | [] => rfl
  | [c] => rfl
  | a :: b :: rest => rfl

theorem Write_mem_output (h : Host) (cfg : Config) (output : List WriteSyncer)
    (opts : List ZapOption) (log : Logger) (hopts : ∀ p ∈ opts, keepsCore p)
    (hrun : InitLoggerWithWriteSyncer h cfg output opts = .ok log) :
    ∀ (lvl : Level), ∀ s ∈ log.Write lvl, s ∈ output := by
  intro lvl s hs
  obtain ⟨c, hc, rfl⟩ := Write_mem_cores log lvl s hs
  unfold InitLoggerWithWriteSyncer at hrun
  cases hcs : InitLoggerWithWriteSyncer.cores h cfg output with
  | err e => rw [hcs] at hrun; simp at hrun
  | panic m => rw [hcs] at hrun; simp at hrun
  | ok cs =>
    rw [hcs] at hrun
    simp only at hrun
    cases hl : output[output.length - 1]? with
    | none => rw [hl] at hrun; simp at hrun
    | some last =>
      rw [hl] at hrun
      simp only [Res.ok.injEq] at hrun
      have hcore : log.core = NewTee cs := by
        rw [← hrun, New_append, foldl_keepsCore opts hopts, New_buildOptions_core]
      rw [hcore, NewTee_cores] at hc
      exact cores_outs h cfg output cs hcs c hc

theorem InitLogger_ok_run (h : Host) (g : Globals) (cfg : Config) (opts : List ZapOption)
    (log : Logger) (hok : (InitLogger h g cfg opts).1.isOk = true)
    (hlog : (InitLogger h g cfg opts).2.1._globalL = some log) :
    ∃ (output : List WriteSyncer) (cfg1 : Config),
      InitLogger.output h cfg = (.ok output, cfg1) ∧
      InitLoggerWithWriteSyncer h cfg1 output opts = .ok log := by
  unfold InitLogger at hok hlog
  rcases hout : InitLogger.output h cfg with ⟨r, cfg1⟩
  rw [hout] at hok hlog
  cases r with
  | error e => simp [Res.isOk] at hok
  | ok output =>
    simp only at hok hlog
    cases hrun : InitLoggerWithWriteSyncer h cfg1 output opts with
    | ok lg =>
      rw [hrun] at hlog
      simp at hlog
      exact ⟨output, cfg1, rfl, by rw [hrun, hlog]⟩
    | err e => rw [hrun] at hok; simp [Res.isOk] at hok
    | panic m => rw [hrun] at hok; simp [Res.isOk] at hok

/-! ## Sequences of `InitLogger` calls -/

theorem Call.run_of_fail (g : Globals) (c : Call)
    (hf : (InitLogger c.host .empty c.cfg c.opts).1.isOk = false) : Call.run g c = g := by
  unfold Call.run
  rw [InitLogger_from_empty]
  simp [hf]

theorem runInits_of_fail (calls : List Call)
    (hf : ∀ c ∈ calls, (InitLogger c.host .empty c.cfg c.opts).1.isOk = false) :
    ∀ g : Globals, runInits g calls = g := by
  induction calls with
  | nil => intro g; rfl
  | cons c cs ih =>
    intro g
    have hc := hf c (by simp)
    have hcs : ∀ d ∈ cs, (InitLogger d.host .empty d.cfg d.opts).1.isOk = false :=
      fun d hd => hf d (by simp [hd])
    show runInits (Call.run g c) cs = g
    rw [Call.run_of_fail g c hc]
    exact ih hcs g

theorem runInits_append (g : Globals) (pre post : List Call) :
    runInits g (pre ++ post) = runInits (runInits g pre) post := by
  simp [runInits, List.foldl_append]

/-- C8: over a sequence of `InitLogger` calls from the empty handle.  Whether a
call succeeds does not depend on the globals it finds.  If no call succeeded,
`L` and `S` panic.  Otherwise, with `c` the last call that succeeded, `L` returns
the logger stored by `c`, `S` returns the sugared wrapper of that logger, and a
record emitted afterwards is written to the sinks that logger selects. -/
theorem handle_after_inits (calls : List Call) :
    (∀ (c : Call) (g : Globals),
      (InitLogger c.host g c.cfg c.opts).1 = (InitLogger c.host .empty c.cfg c.opts).1) ∧
    ((∀ c ∈ calls, (InitLogger c.host .empty c.cfg c.opts).1.isOk = false) →
      (L (runInits .empty calls)).isPanic = true ∧
      (S (runInits .empty calls)).isPanic = true) ∧
    (∀ (pre : List Call) (c : Call) (post : List Call),
      calls = pre ++ c :: post →
      (InitLogger c.host (runInits .empty pre) c.cfg c.opts).1.isOk = true →
      (∀ d ∈ post, (InitLogger d.host .empty d.cfg d.opts).1.isOk = false) →
      ∃ log : Logger,
        (InitLogger c.host (runInits .empty pre) c.cfg c.opts).2.1._globalL = some log ∧
        L (runInits .empty calls) = .ok log ∧
        S (runInits .empty calls) = .ok log.Sugar ∧
        (∀ lvl : Level, Emit (runInits .empty calls) lvl = .ok (log.Write lvl)) ∧
        ((∀ p ∈ c.opts, keepsCore p) →
          ∃ (output : List WriteSyncer) (cfg1 : Config),
            InitLogger.output c.host c.cfg = (.ok output, cfg1) ∧
            ∀ (lvl : Level), ∀ s ∈ log.Write lvl, s ∈ output)) := by
  refine ⟨?_, ?_, ?_⟩
  · intro c g
    rw [InitLogger_from_empty c.host g c.cfg c.opts]
  · intro hf
    rw [runInits_of_fail calls hf]
    exact ⟨rfl, rfl⟩
  · intro pre c post hcalls hok hpost
    obtain ⟨log, hlog⟩ := InitLogger_ok_stores c.host (runInits .empty pre) c.cfg c.opts hok
    have hfinal : runInits .empty calls
        = { _globalL := some log, _globalS := some log.Sugar } := by
      rw [hcalls, runInits_append]
      show runInits (Call.run (runInits .empty pre) c) post = _
      rw [runInits_of_fail post hpost]
      exact hlog
    refine ⟨log, by rw [hlog], ?_, ?_, ?_, ?_⟩
    · rw [hfinal]; rfl
    · rw [hfinal]; rfl
    · intro lvl; rw [hfinal]; rfl
    · intro hopts
      obtain ⟨output, cfg1, hout, hrun⟩ :=
        InitLogger_ok_run c.host (runInits .empty pre) c.cfg c.opts log hok (by rw [hlog])
      exact ⟨output, cfg1, hout, fun lvl s hs =>
        Write_mem_output c.host cfg1 output c.opts log hopts hrun lvl s hs⟩

/-! ## The file name left in the configuration -/

/-- A `GetFileLogs` that ends without an error leaves the name of the last
per-level file in the configuration. -/
theorem GetFileLogs_leaves_Filename (h : Host) (cfg : Config)
    (hok : (GetFileLogs h cfg).err = none) :
    (GetFileLogs h cfg).cfg.File.Filename = cfg.File.Filename ++ "." ++ "FATAL" ++ ".log" := by
  have := loop_cfg_Filename h cfg.File.Filename LevelList cfg [] hok
  simpa [GetFileLogs, LevelList] using this

/-- C9: on the configuration of `TestDebugToFile`, with no path existing,
`GetFileLogs` succeeds and leaves `test.FATAL.log` as the base filename where
`test` was given; `InitLogger` hands the same configuration back, and a second
`GetFileLogs` with it targets `logs/test.FATAL.log.<LEVEL>.log`, not the five
paths of the first call. -/
theorem GetFileLogs_overwrites_Filename :
    cfgFile.File.Filename = "test" ∧
    (GetFileLogs hostQuiet cfgFile).err = none ∧
    (GetFileLogs hostQuiet cfgFile).cfg.File.Filename = "test.FATAL.log" ∧
    (InitLogger hostQuiet .empty cfgFile []).2.2 = (GetFileLogs hostQuiet cfgFile).cfg ∧
    (GetFileLogs hostQuiet cfgFile).fileLogs
      = [sampleFile "logs/test.DEBUG.log", sampleFile "logs/test.INFO.log",
         sampleFile "logs/test.WARN.log", sampleFile "logs/test.ERROR.log",
         sampleFile "logs/test.FATAL.log"] ∧
    (GetFileLogs hostQuiet (GetFileLogs hostQuiet cfgFile).cfg).fileLogs
      = [sampleFile "logs/test.FATAL.log.DEBUG.log", sampleFile "logs/test.FATAL.log.INFO.log",
         sampleFile "logs/test.FATAL.log.WARN.log", sampleFile "logs/test.FATAL.log.ERROR.log",
         sampleFile "logs/test.FATAL.log.FATAL.log"] := by
  refine ⟨by decide, by decide, by decide, by decide, by decide, by decide⟩

/-! ## Instances -/

/-- Instance of C1: the test configuration on a host without files, for a WARN record. -/
theorem per_level_routing_witness :
    (GetFileLogs hostQuiet cfgFile).err = none ∧
    ∃ cores : List ioCore,
      InitLoggerWithWriteSyncer.cores hostQuiet cfgFile (GetFileLogs hostQuiet cfgFile).fileLogs
        = .ok cores ∧
      cores.length = 5 ∧
      cores.map (fun c => c.enab WarnLevel) = [false, false, true, false, false] ∧
      cores[2]?.map (fun c => c.out) = some (sampleFile "logs/test.WARN.log") := by
  refine ⟨by decide, ?_⟩
  obtain ⟨cores, hcs, -, hlen, hrout⟩ := per_level_routing hostQuiet cfgFile cfgFile (by decide)
  obtain ⟨hmap, hout, -⟩ := hrout 2 "WARN" WarnLevel (by decide) (by decide)
  exact ⟨cores, hcs, hlen, hmap, hout⟩

/-- Instance of C2: one console sink and minimum WARN, without further options. -/
theorem single_sink_threshold_witness :
    Level.UnmarshalText hostQuiet.ToLower cfgWarn.Level = .ok WarnLevel ∧
    ∃ log0 : Logger,
      InitLoggerWithWriteSyncer hostQuiet cfgWarn [.stdout] [] = .ok log0 ∧
      log0.Write ErrorLevel = [.stdout] ∧ log0.Write InfoLevel = [] := by
  refine ⟨rfl, ?_⟩
  obtain ⟨log0, hrun, hge, hlt, -⟩ :=
    single_sink_threshold hostQuiet cfgWarn .stdout WarnLevel rfl
  exact ⟨log0, hrun [], hge ErrorLevel (by decide), hlt InfoLevel (by decide)⟩

/-- Instance of C3: the queries over one console sink with minimum WARN and the
caller option of zap. -/
theorem enabled_queries_witness :
    (∀ p ∈ [AddCaller], keepsCore p) ∧
    ∃ log : Logger,
      InitLoggerWithWriteSyncer hostQuiet cfgWarn [.stdout] [AddCaller] = .ok log ∧
      ∀ g : Globals, L g = .ok log →
        IsDebugEnabled g = .ok false ∧ IsInfoEnabled g = .ok false ∧
          IsWarnEnabled g = .ok true := by
  have hopts : ∀ p ∈ [AddCaller], keepsCore p := by
    intro p hp
    rw [List.mem_singleton.mp hp]
    intro log
    rfl
  exact ⟨hopts,
    (enabled_queries hostQuiet cfgWarn).2.2 .stdout WarnLevel rfl [AddCaller] hopts⟩

/-- Instance of C4: the five sinks of the test configuration. -/
theorem GetFileLogs_sinks_witness :
    (∀ l ∈ LevelList, isDirectory hostQuiet (levelPath cfgFile l) = false) ∧
    (GetFileLogs hostQuiet cfgFile).err = none ∧
    (GetFileLogs hostQuiet cfgFile).fileLogs.length = 5 ∧
    (GetFileLogs hostQuiet cfgFile).fileLogs = LevelList.map (levelSink cfgFile) ∧
    (LevelList.map (levelPath cfgFile)).Nodup := by
  have hno : ∀ l ∈ LevelList, isDirectory hostQuiet (levelPath cfgFile l) = false := by decide
  obtain ⟨hok, hlen, hlogs, -, hnodup, -⟩ := GetFileLogs_sinks hostQuiet cfgFile hno
  exact ⟨hno, hok, hlen, hlogs, hnodup⟩

/-- Instance of C5: a handle that holds the console logger, then a file
configuration one of whose paths is a directory. -/
theorem InitLogger_error_keeps_globals_witness :
    (InitLogger hostDir globalsConsole cfgFile []).1.isErr = true ∧
    (InitLogger hostDir globalsConsole cfgFile []).2.1 = globalsConsole ∧
    (L globalsConsole).isOk = true :=
  ⟨by decide,
   (InitLogger_error_keeps_globals hostDir globalsConsole cfgFile [] (by decide)).1,
   by decide⟩

/-- Instance of C6: the path of the WARN file is a directory. -/
theorem GetFileLogs_fails_iff_witness :
    cfgFile.File.Filename ≠ "" ∧
    (GetFileLogs hostDir cfgFile).err ≠ none ∧
    (GetFileLogs hostDir cfgFile).fileLogs = [] ∧
    (InitLogger hostDir .empty cfgFile []).1.isErr = true := by
  have hB : cfgFile.File.Filename ≠ "" := by decide
  obtain ⟨hiff, hnil, hinit⟩ := GetFileLogs_fails_iff hostDir cfgFile hB
  have hex : ∃ l ∈ LevelList, ∃ st,
      hostDir.Stat (levelPath cfgFile l) = some st ∧ st.IsDir = true :=
    ⟨"WARN", by decide, { IsDir := true }, by decide, rfl⟩
  exact ⟨hB, hiff.mpr hex, hnil (hiff.mpr hex), (hinit .empty []).mpr hex⟩

/-- Instance of C7: one sink and a minimum level text that is not a level name. -/
theorem InitLoggerWithWriteSyncer_error_iff_witness :
    (([WriteSyncer.stdout].length = 1) ∨ ([WriteSyncer.stdout].length = 5)) ∧
    (InitLoggerWithWriteSyncer hostQuiet cfgVerbose [.stdout] []).isErr = true ∧
    (InitLoggerWithWriteSyncer hostQuiet cfgWarn [.stdout] []).isOk = true := by
  have hlen : ([WriteSyncer.stdout].length = 1) ∨ ([WriteSyncer.stdout].length = 5) :=
    Or.inl rfl
  refine ⟨hlen, ?_, ?_⟩
  · exact (InitLoggerWithWriteSyncer_error_iff hostQuiet cfgVerbose [.stdout] [] hlen).1.mpr
      ⟨rfl, .unrecognizedLevel "verbose", rfl⟩
  · exact (InitLoggerWithWriteSyncer_error_iff hostQuiet cfgWarn [.stdout] [] hlen).2.2.2 rfl
      (by decide)

/-- Instance of C8: a file-mode call, a console call with minimum WARN, then a
call that fails; an ERROR record goes to the console and to no file, and an
INFO record goes nowhere. -/
theorem handle_after_inits_witness :
    Emit (runInits .empty
        [{ host := hostQuiet, cfg := cfgFile, opts := [] },
         { host := hostQuiet, cfg := cfgWarn, opts := [] },
         { host := hostDir, cfg := cfgFile, opts := [] }]) ErrorLevel = .ok [.stdout] ∧
    Emit (runInits .empty
        [{ host := hostQuiet, cfg := cfgFile, opts := [] },
         { host := hostQuiet, cfg := cfgWarn, opts := [] },
         { host := hostDir, cfg := cfgFile, opts := [] }]) InfoLevel = .ok [] := by
  obtain ⟨log, hlog, -, -, hemit, -⟩ :=
    (handle_after_inits
      [{ host := hostQuiet, cfg := cfgFile, opts := [] },
       { host := hostQuiet, cfg := cfgWarn, opts := [] },
       { host := hostDir, cfg := cfgFile, opts := [] }]).2.2
      [{ host := hostQuiet, cfg := cfgFile, opts := [] }]
      { host := hostQuiet, cfg := cfgWarn, opts := [] }
      [{ host := hostDir, cfg := cfgFile, opts := [] }]
      rfl (by decide) (by decide)
  have hlog' : log = New (.io (NewCore .stdout (Level.Enabled WarnLevel)))
      (cfgWarn.buildOptions .stdout) := by
    have : some log = some (New (.io (NewCore .stdout (Level.Enabled WarnLevel)))
        (cfgWarn.buildOptions .stdout)) := by rw [← hlog]; rfl
    exact Option.some.inj this
  rw [hemit, hemit, hlog']
  exact ⟨rfl, rfl⟩

end Glog
